import Mathlib

/-!
Verification of the interleaved benchmark harness
(`scripts/interleaved_btree_benchmark.py`).

The Python script is embedded shallowly.  The external benchmark process is
modelled as a function from (pass number, configuration) to a process
outcome, JSON parsing as a caller-supplied `String → Option Doc`,
floating-point latencies as rationals, `sys.exit(1)` as an `Except.error`
result, and Python's insertion-ordered dictionaries as association lists.
Printing is dropped; the data each reporting function would print is
returned as a value instead.
-/

namespace InterleavedBench

/-- A configuration identifier: an opaque benchmark-variant name. -/
abbrev Config := String

/-- The fixed percentile ladder inside each operation's entry of a raw
measurement document. -/
structure Percentiles where
  p0 : ℚ
  p50 : ℚ
  p95 : ℚ
  p99 : ℚ
  p99_9 : ℚ
  p99_99 : ℚ
  deriving DecidableEq, Inhabited

/-- The `"performance"` section of a raw measurement document: one
percentile ladder per operation. -/
structure Performance where
  insert : Percentiles
  find : Percentiles
  erase : Percentiles
  deriving DecidableEq, Inhabited

/-- A raw measurement document, as parsed from one invocation's stdout. -/
structure Doc where
  performance : Performance
  deriving DecidableEq, Inhabited

/-- The traversal order `interleaved_benchmark` uses in one pass: forward
for odd pass numbers, reversed for even ones. -/
def passOrder (configs : List Config) (passNum : ℕ) : List Config :=
  if passNum % 2 = 1 then configs else configs.reverse

/-- The full invocation schedule of `interleaved_benchmark`: the
(pass, configuration) pairs in invocation order, passes numbered
`1 .. numPasses`. -/
def schedule (configs : List Config) (numPasses : ℕ) : List (ℕ × Config) :=
  (List.range' 1 numPasses).flatMap fun p => (passOrder configs p).map fun c => (p, c)

/-- The update `results[config].append(doc)` on the insertion-ordered
`defaultdict(list)` of the script. -/
def addResult (res : List (Config × List Doc)) (c : Config) (d : Doc) :
    List (Config × List Doc) :=
  match res with
  | [] => [(c, [d])]
  | (c2, ds) :: rest =>
    if c2 = c then (c2, ds ++ [d]) :: rest else (c2, ds) :: addResult rest c d

/-- Lookup `results[config]` on the accumulated mapping (`[]` for an absent key,
as for a fresh `defaultdict(list)` entry). -/
def getRes (res : List (Config × List Doc)) (c : Config) : List Doc :=
  match res with
  | [] => []
  | (c2, ds) :: rest => if c2 = c then ds else getRes rest c

/-- Why one invocation aborted the run: the external process exited
non-zero (`subprocess.CalledProcessError`) or its stdout failed to parse
(`json.JSONDecodeError`).  Either way the script calls `sys.exit(1)`. -/
inductive RunError
  | exitNonzero (returncode : ℤ)
  | invalidJson
  deriving DecidableEq

/-- What one external invocation produced: an exit code and raw stdout. -/
structure ProcResult where
  returncode : ℤ
  stdout : String
  deriving DecidableEq

/-- The function `run_benchmark`, given the outcome of the `subprocess.run` call and the
JSON parser: `check=True` turns a non-zero exit into a fatal error, and
stdout that does not parse into a document is fatal as well. -/
def run_benchmark (parse : String → Option Doc) (proc : ProcResult) :
    Except RunError Doc :=
  if proc.returncode = 0 then
    match parse proc.stdout with
    | some d => .ok d
    | none => .error .invalidJson
  else .error (.exitNonzero proc.returncode)

/-- The state accumulated by the sampler loop: the per-configuration result
sequences plus the invocations performed so far, in order. -/
structure RunState where
  results : List (Config × List Doc)
  invoked : List (ℕ × Config)
  deriving DecidableEq

/-- The sampler loop over the remaining schedule: invoke, append the
document on success, stop with the fatal error (and the state at exit)
otherwise. -/
def runSchedule (meas : ℕ → Config → Except RunError Doc) :
    List (ℕ × Config) → RunState → Except (RunError × RunState) RunState
  | [], st => .ok st
  | (p, c) :: rest, st =>
    match meas p c with
    | .ok d => runSchedule meas rest ⟨addResult st.results c d, st.invoked ++ [(p, c)]⟩
    | .error e => .error (e, { st with invoked := st.invoked ++ [(p, c)] })

/-- The sampler `interleaved_benchmark`: run every (pass, configuration) pair of the
schedule in order, accumulating one document per invocation, aborting the
whole run at the first failed invocation. -/
def interleaved_benchmark (parse : String → Option Doc)
    (proc : ℕ → Config → ProcResult) (configs : List Config) (numPasses : ℕ) :
    Except (RunError × RunState) RunState :=
  runSchedule (fun p c => run_benchmark parse (proc p c))
    (schedule configs numPasses) ⟨[], []⟩

/-! ### Helper lemmas about the schedule and the result accumulator -/

theorem countP_eq_one_of_nodup {l : List Config} {c : Config}
    (hnd : l.Nodup) (hc : c ∈ l) :
    l.countP (fun x => x = c) = 1 := by
  induction l with
  | nil => cases hc
  | cons a t ih =>
    rcases List.nodup_cons.mp hnd with ⟨hat, hndt⟩
    rcases List.mem_cons.mp hc with h | h
    · subst h
      rw [List.countP_cons]
      simp only [decide_eq_true_eq]
      rw [List.countP_eq_zero.mpr ?_]
      · simp
      · intro x hx
        simp only [decide_eq_true_eq]
        intro hxe
        exact hat (hxe ▸ hx)
    · rw [List.countP_cons]
      have hne : ¬(a = c) := fun h2 => hat (h2 ▸ h)
      simp [ih hndt h, hne]

theorem filter_eq_singleton_of_nodup {l : List Config} {c : Config}
    (hnd : l.Nodup) (hc : c ∈ l) :
    l.filter (fun x => x = c) = [c] := by
  induction l with
  | nil => cases hc
  | cons a t ih =>
    rcases List.nodup_cons.mp hnd with ⟨hat, hndt⟩
    rcases List.mem_cons.mp hc with h | h
    · subst h
      rw [List.filter_cons_of_pos (by simp)]
      rw [List.filter_eq_nil_iff.mpr ?_]
      · intro x hx
        simp only [decide_eq_true_eq]
        intro hxe
        exact hat (hxe ▸ hx)
    · have hne : ¬(a = c) := fun h2 => hat (h2 ▸ h)
      rw [List.filter_cons_of_neg (by simpa using hne)]
      exact ih hndt h

theorem passOrder_countP {configs : List Config} {c : Config} (p : ℕ)
    (hnd : configs.Nodup) (hc : c ∈ configs) :
    (passOrder configs p).countP (fun x => x = c) = 1 := by
  unfold passOrder
  split
  · exact countP_eq_one_of_nodup hnd hc
  · exact countP_eq_one_of_nodup (List.nodup_reverse.mpr hnd) (List.mem_reverse.mpr hc)

theorem passOrder_filter {configs : List Config} {c : Config} (p : ℕ)
    (hnd : configs.Nodup) (hc : c ∈ configs) :
    (passOrder configs p).filter (fun x => x = c) = [c] := by
  unfold passOrder
  split
  · exact filter_eq_singleton_of_nodup hnd hc
  · exact filter_eq_singleton_of_nodup (List.nodup_reverse.mpr hnd) (List.mem_reverse.mpr hc)

theorem schedule_countP_config {configs : List Config} {c : Config} {N : ℕ}
    (hnd : configs.Nodup) (hc : c ∈ configs) :
    (schedule configs N).countP (fun pc => pc.2 = c) = N := by
  unfold schedule
  rw [List.countP_flatMap]
  have hmap : (List.range' 1 N).map
      (List.countP (fun pc => decide (pc.2 = c)) ∘
        fun p => (passOrder configs p).map fun x => (p, x))
      = (List.range' 1 N).map fun _ => 1 := by
    apply List.map_congr_left
    intro p _
    simp only [Function.comp_apply, List.countP_map]
    exact passOrder_countP p hnd hc
  rw [hmap]
  simp [List.map_const']

theorem flatMap_filter_fst {g : ℕ → List Config} {k : ℕ} :
    ∀ (l : List ℕ), l.Nodup → k ∈ l →
      ((l.flatMap fun p => (g p).map fun x => (p, x)).filter
          fun pc => pc.1 = k)
        = (g k).map fun x => (k, x) := by
  intro l
  induction l with
  | nil => intro _ h; cases h
  | cons p t ih =>
    intro hnd hk
    rcases List.nodup_cons.mp hnd with ⟨hpt, hndt⟩
    rw [List.flatMap_cons, List.filter_append]
    rcases List.mem_cons.mp hk with h | h
    · subst h
      rw [List.filter_eq_self.mpr ?keep, List.filter_eq_nil_iff.mpr ?drop]
      · simp
      case keep =>
        intro pc hpc
        rcases List.mem_map.mp hpc with ⟨x, _, rfl⟩
        simp
      case drop =>
        intro pc hpc
        rcases List.mem_flatMap.mp hpc with ⟨q, hq, hpc2⟩
        rcases List.mem_map.mp hpc2 with ⟨x, _, rfl⟩
        simp only [decide_eq_true_eq]
        intro h2
        exact hpt (h2 ▸ hq)
    · have hne : p ≠ k := fun h2 => hpt (h2 ▸ h)
      rw [List.filter_eq_nil_iff.mpr ?_, List.nil_append]
      · exact ih hndt h
      · intro pc hpc
        rcases List.mem_map.mp hpc with ⟨x, _, rfl⟩
        simpa using hne

theorem getRes_addResult_same (res : List (Config × List Doc)) (c : Config) (d : Doc) :
    getRes (addResult res c d) c = getRes res c ++ [d] := by
  induction res with
  | nil => simp [addResult, getRes]
  | cons q rest ih =>
    obtain ⟨c2, ds⟩ := q
    by_cases h : c2 = c
    · subst h
      simp [addResult, getRes]
    · simp [addResult, getRes, h, ih]

theorem getRes_addResult_ne (res : List (Config × List Doc)) (cadd cget : Config)
    (d : Doc) (h : cadd ≠ cget) :
    getRes (addResult res cadd d) cget = getRes res cget := by
  induction res with
  | nil => simp [addResult, getRes, h]
  | cons q rest ih =>
    obtain ⟨c2, ds⟩ := q
    by_cases h2 : c2 = cadd
    · subst h2
      simp [addResult, getRes, h]
    · by_cases h3 : c2 = cget
      · subst h3
        simp [addResult, getRes, h2]
      · simp [addResult, getRes, h2, h3, ih]

theorem getRes_foldl_addResult (m : ℕ → Config → Doc) (c : Config) :
    ∀ (sched : List (ℕ × Config)) (res : List (Config × List Doc)),
      getRes (sched.foldl (fun r pc => addResult r pc.2 (m pc.1 pc.2)) res) c
        = getRes res c ++ ((sched.filter fun pc => pc.2 = c).map fun pc => m pc.1 pc.2) := by
  intro sched
  induction sched with
  | nil => intro res; simp
  | cons pc t ih =>
    intro res
    obtain ⟨p, c2⟩ := pc
    by_cases h : c2 = c
    · subst h
      rw [List.foldl_cons, ih, getRes_addResult_same,
        List.filter_cons_of_pos (by simp)]
      simp
    · rw [List.foldl_cons, ih, getRes_addResult_ne _ _ _ _ h,
        List.filter_cons_of_neg (by simpa using h)]

theorem runSchedule_append_ok (meas : ℕ → Config → Except RunError Doc)
    (m : ℕ → Config → Doc) :
    ∀ (pre rest : List (ℕ × Config)) (st : RunState),
      (∀ pc ∈ pre, meas pc.1 pc.2 = .ok (m pc.1 pc.2)) →
      runSchedule meas (pre ++ rest) st =
        runSchedule meas rest
          ⟨pre.foldl (fun r pc => addResult r pc.2 (m pc.1 pc.2)) st.results,
           st.invoked ++ pre⟩ := by
  intro pre
  induction pre with
  | nil => intro rest st _; simp
  | cons pc t ih =>
    intro rest st hok
    obtain ⟨p, c⟩ := pc
    have h1 := hok (p, c) (List.mem_cons_self _ _)
    simp only [List.cons_append, runSchedule, h1]
    rw [List.append_eq]
    rw [ih rest ⟨addResult st.results c (m p c), st.invoked ++ [(p, c)]⟩
      (fun q hq => hok q (List.mem_cons_of_mem _ hq))]
    simp

theorem runSchedule_all_ok (meas : ℕ → Config → Except RunError Doc)
    (m : ℕ → Config → Doc) (hm : ∀ p c, meas p c = .ok (m p c))
    (sched : List (ℕ × Config)) (st : RunState) :
    runSchedule meas sched st =
      .ok ⟨sched.foldl (fun r pc => addResult r pc.2 (m pc.1 pc.2)) st.results,
           st.invoked ++ sched⟩ := by
  have h := runSchedule_append_ok meas m sched [] st (fun pc _ => hm pc.1 pc.2)
  rw [List.append_nil] at h
  rw [h]
  rfl

theorem runSchedule_fail (meas : ℕ → Config → Except RunError Doc)
    (m : ℕ → Config → Doc) (e : RunError)
    (pre post : List (ℕ × Config)) (p : ℕ) (c : Config) (st : RunState)
    (hpre : ∀ pc ∈ pre, meas pc.1 pc.2 = .ok (m pc.1 pc.2))
    (hfail : meas p c = .error e) :
    runSchedule meas (pre ++ (p, c) :: post) st =
      .error (e, ⟨pre.foldl (fun r pc => addResult r pc.2 (m pc.1 pc.2)) st.results,
                  (st.invoked ++ pre) ++ [(p, c)]⟩) := by
  rw [runSchedule_append_ok meas m pre ((p, c) :: post) st hpre]
  simp [runSchedule, hfail]

theorem schedule_filter_snd {configs : List Config} {c : Config} (N : ℕ)
    (hnd : configs.Nodup) (hc : c ∈ configs) :
    ((schedule configs N).filter fun pc => pc.2 = c)
      = (List.range' 1 N).map fun p => (p, c) := by
  unfold schedule
  induction (List.range' 1 N) with
  | nil => simp
  | cons p t ih =>
    rw [List.flatMap_cons, List.filter_append, List.filter_map, ih]
    have hch : ((passOrder configs p).filter
        ((fun pc => decide (pc.2 = c)) ∘ fun x => (p, x))) = [c] :=
      passOrder_filter p hnd hc
    rw [hch]
    simp

/-! ### Claim C1: schedule visit counts and per-pass orders -/

/-- C1 counterexample: the claim quantifies over every configuration list,
but with the duplicated list `["A", "A"]` and `N = 2` the schedule visits
the configuration `"A"` four times, not `N = 2` times. -/
theorem C1_counterexample :
    ((schedule ["A", "A"] 2).countP fun pc => pc.2 = "A") = 4 ∧
    ¬ (((schedule ["A", "A"] 2).countP fun pc => pc.2 = "A") = 2) := by
  decide

/-- C1 (amended with pairwise-distinct configuration names): for every
pass count `N ≥ 2` and every duplicate-free configuration list, the
schedule generated by `interleaved_benchmark` visits every configuration
exactly `N` times in total, and each odd-numbered pass (1-indexed) visits
the configurations in the input order while each even-numbered pass visits
them in the exact reverse of the input order. -/
theorem C1_schedule_visits (configs : List Config) (N : ℕ) (c : Config)
    (hN : 2 ≤ N) (hnd : configs.Nodup) (hc : c ∈ configs) :
    ((schedule configs N).countP fun pc => pc.2 = c) = N ∧
    ∀ k, 1 ≤ k → k ≤ N →
      (((schedule configs N).filter fun pc => pc.1 = k).map Prod.snd)
        = (if k % 2 = 1 then configs else configs.reverse) := by
  refine ⟨schedule_countP_config hnd hc, ?_⟩
  intro k h1 h2
  unfold schedule
  rw [flatMap_filter_fst (List.range' 1 N) (List.nodup_range' 1 N)
    (List.mem_range'_1.mpr ⟨h1, by omega⟩)]
  simp [passOrder, List.map_map]

/-- Witness for C1 at `configs = ["A", "B"]`, `N = 2`, `c = "A"`. -/
theorem C1_schedule_visits_witness :
    (2 ≤ 2 ∧ (["A", "B"] : List Config).Nodup ∧ "A" ∈ (["A", "B"] : List Config)) ∧
    (((schedule ["A", "B"] 2).countP fun pc => pc.2 = "A") = 2 ∧
      ∀ k, 1 ≤ k → k ≤ 2 →
        (((schedule ["A", "B"] 2).filter fun pc => pc.1 = k).map Prod.snd)
          = (if k % 2 = 1 then ["A", "B"] else (["A", "B"] : List Config).reverse)) :=
  ⟨⟨by decide, by decide, by decide⟩,
    C1_schedule_visits ["A", "B"] 2 "A" (by decide) (by decide) (by decide)⟩

/-! ### Claim C2: per-configuration result sequences -/

/-- A parser for concrete runs: the exact stdout `"ok"` parses to the
default document, anything else fails to parse. -/
def parse0 : String → Option Doc := fun s => if s = "ok" then some default else none

/-- An external process that always succeeds with parseable output. -/
def proc0 : ℕ → Config → ProcResult := fun _ _ => ⟨0, "ok"⟩

/-- The document every successful `proc0` invocation produces. -/
def m0 : ℕ → Config → Doc := fun _ _ => default

/-- C2 counterexample: with the duplicated configuration list `["A", "A"]`
and `N = 2` passes, the completed run stores a result sequence of length 4
for `"A"`, not `N = 2`. -/
theorem C2_counterexample :
    interleaved_benchmark parse0 proc0 ["A", "A"] 2 =
      .ok ⟨[("A", [default, default, default, default])],
           [(1, "A"), (1, "A"), (2, "A"), (2, "A")]⟩ ∧
    ¬ ((getRes [("A", [default, default, default, default])] "A").length = 2) := by
  constructor
  · rfl
  · decide

/-- C2 (amended with pairwise-distinct configuration names): when every
invocation succeeds (producing document `m p c` in pass `p` for
configuration `c`), `interleaved_benchmark` completes, and for every
configuration of the duplicate-free input list the stored result sequence
has length exactly `N` with its `i`-th entry (0-indexed) being the document
produced in pass `i + 1` — ascending pass order, regardless of each pass's
traversal direction. -/
theorem C2_result_sequences (parse : String → Option Doc)
    (proc : ℕ → Config → ProcResult) (configs : List Config) (N : ℕ)
    (c : Config) (m : ℕ → Config → Doc)
    (hN : 2 ≤ N) (hnd : configs.Nodup) (hc : c ∈ configs)
    (hok : ∀ p c2, run_benchmark parse (proc p c2) = .ok (m p c2)) :
    ∃ st, interleaved_benchmark parse proc configs N = .ok st ∧
      getRes st.results c = ((List.range' 1 N).map fun p => m p c) ∧
      (getRes st.results c).length = N ∧
      ∀ i, i < N → (getRes st.results c).getD i default = m (1 + i) c := by
  refine ⟨_, runSchedule_all_ok _ m (fun p c2 => hok p c2) _ _, ?_⟩
  have hres : getRes
      ((schedule configs N).foldl
        (fun r pc => addResult r pc.2 (m pc.1 pc.2)) ([] : List (Config × List Doc))) c
      = (List.range' 1 N).map fun p => m p c := by
    rw [getRes_foldl_addResult, schedule_filter_snd N hnd hc]
    simp [getRes, List.map_map]
  refine ⟨hres, ?_, ?_⟩
  · rw [hres]
    simp
  · intro i hi
    rw [hres, List.getD_eq_getElem _ _ (by simpa using hi)]
    simp

/-- Witness for C2 at `configs = ["A", "B"]`, `N = 2`, `c = "A"`, with an
always-succeeding external process. -/
theorem C2_result_sequences_witness :
    (2 ≤ 2 ∧ (["A", "B"] : List Config).Nodup ∧ "A" ∈ (["A", "B"] : List Config) ∧
      (∀ p c2, run_benchmark parse0 (proc0 p c2) = .ok (m0 p c2))) ∧
    (∃ st, interleaved_benchmark parse0 proc0 ["A", "B"] 2 = .ok st ∧
      getRes st.results "A" = ((List.range' 1 2).map fun p => m0 p "A") ∧
      (getRes st.results "A").length = 2 ∧
      ∀ i, i < 2 → (getRes st.results "A").getD i default = m0 (1 + i) "A") :=
  ⟨⟨by decide, by decide, by decide, fun p c2 => rfl⟩,
    C2_result_sequences parse0 proc0 ["A", "B"] 2 "A" m0
      (by decide) (by decide) (by decide) (fun p c2 => rfl)⟩

/-! ### Claim C8: a failed invocation aborts the whole run -/

theorem run_benchmark_error (parse : String → Option Doc) (proc : ProcResult)
    (h : proc.returncode ≠ 0 ∨ parse proc.stdout = none) :
    ∃ e, run_benchmark parse proc = .error e := by
  unfold run_benchmark
  by_cases h0 : proc.returncode = 0
  · rcases h with h | h
    · exact absurd h0 h
    · rw [if_pos h0, h]
      exact ⟨.invalidJson, rfl⟩
  · rw [if_neg h0]
    exact ⟨.exitNonzero proc.returncode, rfl⟩

/-- C8: if every invocation strictly before some schedule position
succeeds and the external process at that position exits non-zero or
produces output that does not parse, the whole run stops there with a
fatal error.  The invocation log at exit is exactly the prefix plus the
failed invocation (so no later scheduled invocation runs), the run's
value is an error (so no result mapping is handed to aggregation), and
the partial results at exit contain for the failed invocation's
configuration only the documents of the earlier successful invocations —
nothing was appended for the failed one. -/
theorem C8_invocation_failure_aborts (parse : String → Option Doc)
    (proc : ℕ → Config → ProcResult) (configs : List Config) (N : ℕ)
    (m : ℕ → Config → Doc)
    (pre post : List (ℕ × Config)) (p : ℕ) (c : Config)
    (hsched : schedule configs N = pre ++ (p, c) :: post)
    (hpre : ∀ pc ∈ pre, run_benchmark parse (proc pc.1 pc.2) = .ok (m pc.1 pc.2))
    (hfail : (proc p c).returncode ≠ 0 ∨ parse (proc p c).stdout = none) :
    ∃ e, interleaved_benchmark parse proc configs N =
      .error (e, ⟨pre.foldl (fun r pc => addResult r pc.2 (m pc.1 pc.2)) [],
                  pre ++ [(p, c)]⟩) ∧
    getRes (pre.foldl (fun r pc => addResult r pc.2 (m pc.1 pc.2)) []) c
      = ((pre.filter fun pc => pc.2 = c).map fun pc => m pc.1 pc.2) := by
  obtain ⟨e, he⟩ := run_benchmark_error parse (proc p c) hfail
  refine ⟨e, ?_, ?_⟩
  · unfold interleaved_benchmark
    rw [hsched, runSchedule_fail _ m e pre post p c _ hpre he]
    simp
  · rw [getRes_foldl_addResult]
    simp [getRes]

/-- An external process whose output is unparseable exactly for
configuration `"B"`. -/
def procBadB : ℕ → Config → ProcResult :=
  fun _ c => if c = "B" then ⟨0, "bad"⟩ else ⟨0, "ok"⟩

/-- Witness for C8: with configurations `["A", "B"]` and `N = 2` the run
fails at the second scheduled invocation, pass 1 configuration `"B"`,
with an invalid-JSON error. -/
theorem C8_invocation_failure_aborts_witness :
    (schedule ["A", "B"] 2 = [(1, "A")] ++ (1, "B") :: [(2, "B"), (2, "A")] ∧
      (∀ pc ∈ [((1 : ℕ), ("A" : Config))],
        run_benchmark parse0 (procBadB pc.1 pc.2) = .ok (m0 pc.1 pc.2)) ∧
      parse0 (procBadB 1 "B").stdout = none) ∧
    (∃ e, interleaved_benchmark parse0 procBadB ["A", "B"] 2 =
      .error (e,
        ⟨[((1 : ℕ), ("A" : Config))].foldl
          (fun r pc => addResult r pc.2 (m0 pc.1 pc.2)) [],
         [(1, "A")] ++ [(1, "B")]⟩) ∧
    getRes ([((1 : ℕ), ("A" : Config))].foldl
        (fun r pc => addResult r pc.2 (m0 pc.1 pc.2)) []) "B"
      = (([((1 : ℕ), ("A" : Config))].filter fun pc => pc.2 = "B").map
          fun pc => m0 pc.1 pc.2)) :=
  ⟨⟨rfl, fun pc hpc => by rw [List.mem_singleton.mp hpc]; rfl, rfl⟩,
    C8_invocation_failure_aborts parse0 procBadB ["A", "B"] 2 m0
      [(1, "A")] [(2, "B"), (2, "A")] 1 "B" rfl
      (fun pc hpc => by rw [List.mem_singleton.mp hpc]; rfl) (Or.inr rfl)⟩

/-! ### The statistics used by `aggregate_results`
(`statistics.median`, `min`, `max`, `statistics.stdev`) -/

/-- Python's `sorted(data)`, as used by `statistics.median`. -/
def pysorted (xs : List ℚ) : List ℚ := List.insertionSort (· ≤ ·) xs

/-- Python's `statistics.median`: the middle element of the sorted data for odd
length, the mean of the two middle elements for even length.  (Python
raises on an empty list; the script only calls this on non-empty data, so
the `getD` default is never reached there.) -/
def pymedian (xs : List ℚ) : ℚ :=
  if (pysorted xs).length % 2 = 1 then
    (pysorted xs).getD ((pysorted xs).length / 2) 0
  else
    ((pysorted xs).getD ((pysorted xs).length / 2 - 1) 0 +
      (pysorted xs).getD ((pysorted xs).length / 2) 0) / 2

/-- Python's `min(xs)` over a non-empty list (`0` on `[]`, never reached). -/
def pymin : List ℚ → ℚ
  | [] => 0
  | [x] => x
  | x :: y :: t => min x (pymin (y :: t))

/-- Python's `max(xs)` over a non-empty list (`0` on `[]`, never reached). -/
def pymax : List ℚ → ℚ
  | [] => 0
  | [x] => x
  | x :: y :: t => max x (pymax (y :: t))

/-- The sample variance `Σ (x - mean)² / (n - 1)`: the square of
`statistics.stdev xs`. -/
def sampleVariance (xs : List ℚ) : ℚ :=
  ((xs.map fun x => (x - xs.sum / (xs.length : ℚ)) ^ 2).sum) / ((xs.length : ℚ) - 1)

theorem pymin_le {xs : List ℚ} {y : ℚ} (hy : y ∈ xs) : pymin xs ≤ y := by
  induction xs with
  | nil => cases hy
  | cons x t ih =>
    cases t with
    | nil =>
      rw [List.mem_singleton.mp hy]
      exact le_refl x
    | cons z t2 =>
      rcases List.mem_cons.mp hy with h | h
      · rw [h]
        exact min_le_left _ _
      · exact le_trans (min_le_right _ _) (ih h)

theorem le_pymax {xs : List ℚ} {y : ℚ} (hy : y ∈ xs) : y ≤ pymax xs := by
  induction xs with
  | nil => cases hy
  | cons x t ih =>
    cases t with
    | nil =>
      rw [List.mem_singleton.mp hy]
      exact le_refl x
    | cons z t2 =>
      rcases List.mem_cons.mp hy with h | h
      · rw [h]
        exact le_max_left _ _
      · exact le_trans (ih h) (le_max_right _ _)

theorem pymedian_bounds {xs : List ℚ} (h : xs ≠ []) :
    pymin xs ≤ pymedian xs ∧ pymedian xs ≤ pymax xs := by
  have hperm : (pysorted xs).Perm xs := List.perm_insertionSort _ _
  have hpos : 0 < (pysorted xs).length := by
    rw [hperm.length_eq]
    exact List.length_pos.mpr h
  have hmem : ∀ i (hi : i < (pysorted xs).length),
      pymin xs ≤ (pysorted xs)[i] ∧ (pysorted xs)[i] ≤ pymax xs := by
    intro i hi
    have hx : (pysorted xs)[i] ∈ xs := hperm.mem_iff.mp (List.getElem_mem hi)
    exact ⟨pymin_le hx, le_pymax hx⟩
  unfold pymedian
  by_cases hodd : (pysorted xs).length % 2 = 1
  · rw [if_pos hodd]
    have hi : (pysorted xs).length / 2 < (pysorted xs).length :=
      Nat.div_lt_self hpos one_lt_two
    rw [List.getD_eq_getElem _ _ hi]
    exact hmem _ hi
  · rw [if_neg hodd]
    have hi2 : (pysorted xs).length / 2 < (pysorted xs).length :=
      Nat.div_lt_self hpos one_lt_two
    have hi1 : (pysorted xs).length / 2 - 1 < (pysorted xs).length :=
      lt_of_le_of_lt (Nat.sub_le _ _) hi2
    rw [List.getD_eq_getElem _ _ hi1, List.getD_eq_getElem _ _ hi2]
    obtain ⟨ha1, ha2⟩ := hmem _ hi1
    obtain ⟨hb1, hb2⟩ := hmem _ hi2
    constructor
    · linarith
    · linarith

/-! ### Aggregation (`aggregate_results`) -/

/-- The per-metric summary entries of an aggregate record.  The script
stores `stdev(values)` (a float); since the square root of a rational need
not be rational, `stdevSq` holds that number's square, and the stored
standard deviation itself is characterised by `StoredStdev`. -/
structure MetricStats where
  median : ℚ
  min : ℚ
  max : ℚ
  stdevSq : ℚ
  values : List ℚ
  deriving DecidableEq

/-- One metric's block of an `aggregated[config]` entry:
`median(values)`, `min(values)`, `max(values)`,
`stdev(values) if len(values) > 1 else 0` (kept as its square), and the
raw value list. -/
def mkStats (values : List ℚ) : MetricStats :=
  { median := pymedian values
    min := pymin values
    max := pymax values
    stdevSq := if values.length > 1 then sampleVariance values else 0
    values := values }

/-- The proposition that `s` is the standard deviation the script stores for `stats`: the
non-negative real number whose square is the stored variance. -/
def StoredStdev (stats : MetricStats) (s : ℝ) : Prop :=
  0 ≤ s ∧ s ^ 2 = (stats.stdevSq : ℝ)

/-- One `aggregated[config]` dictionary: the pass count, the six tracked
metric blocks, and the `"median_run"` performance section. -/
structure AggRecord where
  passes : ℕ
  insert_p99_9 : MetricStats
  insert_p50 : MetricStats
  find_p99_9 : MetricStats
  find_p50 : MetricStats
  erase_p99_9 : MetricStats
  erase_p50 : MetricStats
  median_run : Performance
  deriving DecidableEq

/-- The six tracked (operation, percentile) metrics:
{insert, find, erase} × {p50, p99_9}. -/
inductive Metric
  | insert_p99_9
  | insert_p50
  | find_p99_9
  | find_p50
  | erase_p99_9
  | erase_p50
  deriving DecidableEq

/-- The scalar a metric extracts from one raw measurement document, e.g.
`r["performance"]["insert"]["p99_9"]`. -/
def Metric.extract : Metric → Doc → ℚ
  | .insert_p99_9, r => r.performance.insert.p99_9
  | .insert_p50, r => r.performance.insert.p50
  | .find_p99_9, r => r.performance.find.p99_9
  | .find_p50, r => r.performance.find.p50
  | .erase_p99_9, r => r.performance.erase.p99_9
  | .erase_p50, r => r.performance.erase.p50

/-- The summary block a metric occupies in an aggregate record. -/
def Metric.stats : Metric → AggRecord → MetricStats
  | .insert_p99_9, a => a.insert_p99_9
  | .insert_p50, a => a.insert_p50
  | .find_p99_9, a => a.find_p99_9
  | .find_p50, a => a.find_p50
  | .erase_p99_9, a => a.erase_p99_9
  | .erase_p50, a => a.erase_p50

/-- The aggregate record built for one configuration with a non-empty
`pass_results` list: six value sequences extracted in pass order, their
summary statistics, and the full performance data of the median run
`pass_results[len(pass_results) // 2]`. -/
def aggregate_one (pass_results : List Doc) : AggRecord :=
  { passes := pass_results.length
    insert_p99_9 := mkStats (pass_results.map fun r => r.performance.insert.p99_9)
    insert_p50 := mkStats (pass_results.map fun r => r.performance.insert.p50)
    find_p99_9 := mkStats (pass_results.map fun r => r.performance.find.p99_9)
    find_p50 := mkStats (pass_results.map fun r => r.performance.find.p50)
    erase_p99_9 := mkStats (pass_results.map fun r => r.performance.erase.p99_9)
    erase_p50 := mkStats (pass_results.map fun r => r.performance.erase.p50)
    median_run := (pass_results.getD (pass_results.length / 2) default).performance }

/-- The aggregator `aggregate_results`: one aggregate record per configuration, in input
iteration order, skipping (with a warning) configurations whose result
sequence is empty. -/
def aggregate_results (results : List (Config × List Doc)) :
    List (Config × AggRecord) :=
  results.filterMap fun p =>
    if p.2.isEmpty then none else some (p.1, aggregate_one p.2)

theorem Metric.stats_aggregate_one (m : Metric) (prs : List Doc) :
    m.stats (aggregate_one prs) = mkStats (prs.map m.extract) := by
  cases m <;> rfl

theorem mem_aggregate_results {results : List (Config × List Doc)}
    {config : Config} {rec : AggRecord}
    (h : (config, rec) ∈ aggregate_results results) :
    ∃ prs, (config, prs) ∈ results ∧ prs ≠ [] ∧ rec = aggregate_one prs := by
  unfold aggregate_results at h
  rcases List.mem_filterMap.mp h with ⟨p, hp, heq⟩
  obtain ⟨c2, prs⟩ := p
  by_cases he : prs.isEmpty = true
  · rw [if_pos he] at heq
    cases heq
  · rw [if_neg he] at heq
    injection heq with h2
    simp only [Prod.mk.injEq] at h2
    obtain ⟨rfl, rfl⟩ := h2
    exact ⟨prs, hp, by simpa using he, rfl⟩

theorem aggregate_results_mem {results : List (Config × List Doc)}
    {config : Config} {prs : List Doc}
    (hmem : (config, prs) ∈ results) (hne : prs ≠ []) :
    (config, aggregate_one prs) ∈ aggregate_results results := by
  unfold aggregate_results
  refine List.mem_filterMap.mpr ⟨(config, prs), hmem, ?_⟩
  rw [if_neg (by simpa using hne)]

/-! ### Claims C3, C5, C10: aggregation statistics -/

/-- C3: for every configuration with a non-empty result sequence and every
tracked (operation, percentile) metric, `aggregate_results` stores the
median, minimum and maximum of the metric's value sequence extracted in
pass order (and the sequence itself); the stored sample standard deviation
is exactly 0 when the sequence has fewer than two elements, and for two or
more elements it is the non-negative number whose square is the classical
sample variance `Σ (x - mean)² / (n - 1)`; in particular the value
sequence `[100, 100, 100, 400]` yields sample standard deviation 150. -/
theorem C3_aggregate_statistics (results : List (Config × List Doc))
    (config : Config) (prs : List Doc) (m : Metric)
    (hmem : (config, prs) ∈ results) (hne : prs ≠ []) :
    (config, aggregate_one prs) ∈ aggregate_results results ∧
    (m.stats (aggregate_one prs)).median = pymedian (prs.map m.extract) ∧
    (m.stats (aggregate_one prs)).min = pymin (prs.map m.extract) ∧
    (m.stats (aggregate_one prs)).max = pymax (prs.map m.extract) ∧
    (m.stats (aggregate_one prs)).values = prs.map m.extract ∧
    ((prs.map m.extract).length < 2 →
      ∀ s : ℝ, StoredStdev (m.stats (aggregate_one prs)) s ↔ s = 0) ∧
    (2 ≤ (prs.map m.extract).length →
      ∀ s : ℝ, StoredStdev (m.stats (aggregate_one prs)) s ↔
        0 ≤ s ∧ s ^ 2 =
          ((((prs.map m.extract).map fun x =>
              (x - (prs.map m.extract).sum / ((prs.map m.extract).length : ℚ)) ^ 2).sum /
            (((prs.map m.extract).length : ℚ) - 1) : ℚ) : ℝ)) ∧
    StoredStdev (mkStats [100, 100, 100, 400]) 150 := by
  rw [Metric.stats_aggregate_one]
  refine ⟨aggregate_results_mem hmem hne, rfl, rfl, rfl, rfl, ?_, ?_, ?_⟩
  · intro hlt s
    unfold StoredStdev
    rw [show (mkStats (prs.map m.extract)).stdevSq = 0 from by
      simp only [mkStats]
      rw [if_neg (by omega)]]
    constructor
    · rintro ⟨hs0, hs2⟩
      rw [Rat.cast_zero] at hs2
      exact (pow_eq_zero_iff two_ne_zero).mp hs2
    · rintro rfl
      exact ⟨le_refl 0, by norm_num⟩
  · intro hge s
    unfold StoredStdev
    rw [show (mkStats (prs.map m.extract)).stdevSq
          = sampleVariance (prs.map m.extract) from by
      simp only [mkStats]
      rw [if_pos (by omega)]]
    unfold sampleVariance
    exact Iff.rfl
  · refine ⟨by norm_num, ?_⟩
    have hsv : sampleVariance [100, 100, 100, 400] = 22500 := by
      norm_num [sampleVariance]
    rw [show (mkStats [100, 100, 100, 400]).stdevSq = 22500 from by
      simp only [mkStats]
      rw [if_pos (by norm_num), hsv]]
    norm_num

/-- A concrete raw measurement document (all percentiles default). -/
def docEx : Doc := default

/-- A concrete one-configuration result mapping. -/
def resultsEx : List (Config × List Doc) := [("A", [docEx])]

/-- Witness for C3 at the concrete input `resultsEx`, metric insert p50. -/
theorem C3_aggregate_statistics_witness :
    ((("A" : Config), [docEx]) ∈ resultsEx ∧ ([docEx] : List Doc) ≠ []) ∧
    ((("A" : Config), aggregate_one [docEx]) ∈ aggregate_results resultsEx ∧
     (Metric.insert_p50.stats (aggregate_one [docEx])).median
       = pymedian ([docEx].map Metric.insert_p50.extract) ∧
     (Metric.insert_p50.stats (aggregate_one [docEx])).min
       = pymin ([docEx].map Metric.insert_p50.extract) ∧
     (Metric.insert_p50.stats (aggregate_one [docEx])).max
       = pymax ([docEx].map Metric.insert_p50.extract) ∧
     (Metric.insert_p50.stats (aggregate_one [docEx])).values
       = [docEx].map Metric.insert_p50.extract ∧
     (([docEx].map Metric.insert_p50.extract).length < 2 →
       ∀ s : ℝ, StoredStdev (Metric.insert_p50.stats (aggregate_one [docEx])) s ↔ s = 0) ∧
     (2 ≤ ([docEx].map Metric.insert_p50.extract).length →
       ∀ s : ℝ, StoredStdev (Metric.insert_p50.stats (aggregate_one [docEx])) s ↔
         0 ≤ s ∧ s ^ 2 =
           (((([docEx].map Metric.insert_p50.extract).map fun x =>
               (x - ([docEx].map Metric.insert_p50.extract).sum /
                 (([docEx].map Metric.insert_p50.extract).length : ℚ)) ^ 2).sum /
             ((([docEx].map Metric.insert_p50.extract).length : ℚ) - 1) : ℚ) : ℝ)) ∧
     StoredStdev (mkStats [100, 100, 100, 400]) 150) :=
  ⟨⟨by decide, by decide⟩,
    C3_aggregate_statistics resultsEx "A" [docEx] .insert_p50 (by decide) (by decide)⟩

/-- C5: for every configuration with a non-empty result sequence of length
`L`, the representative run stored as `"median_run"` is the performance
section of the raw measurement document at 0-indexed position
`⌊L / 2⌋` of the pass-ordered result sequence (a valid position). -/
theorem C5_median_run (results : List (Config × List Doc)) (config : Config)
    (prs : List Doc) (hmem : (config, prs) ∈ results) (hne : prs ≠ []) :
    (config, aggregate_one prs) ∈ aggregate_results results ∧
    prs.length / 2 < prs.length ∧
    (aggregate_one prs).median_run
      = (prs.getD (prs.length / 2) default).performance :=
  ⟨aggregate_results_mem hmem hne,
    Nat.div_lt_self (List.length_pos.mpr hne) one_lt_two, rfl⟩

/-- Witness for C5 at the concrete input `resultsEx`. -/
theorem C5_median_run_witness :
    ((("A" : Config), [docEx]) ∈ resultsEx ∧ ([docEx] : List Doc) ≠ []) ∧
    ((("A" : Config), aggregate_one [docEx]) ∈ aggregate_results resultsEx ∧
     ([docEx] : List Doc).length / 2 < ([docEx] : List Doc).length ∧
     (aggregate_one [docEx]).median_run
       = (([docEx] : List Doc).getD (([docEx] : List Doc).length / 2) default).performance) :=
  ⟨⟨by decide, by decide⟩,
    C5_median_run resultsEx "A" [docEx] (by decide) (by decide)⟩

/-- C10: every aggregate record satisfies `min ≤ median ≤ max` for every
tracked metric, and its `passes` count equals the length of the stored raw
value sequence for that metric. -/
theorem C10_aggregate_invariants (results : List (Config × List Doc))
    (config : Config) (rec : AggRecord) (m : Metric)
    (h : (config, rec) ∈ aggregate_results results) :
    (m.stats rec).min ≤ (m.stats rec).median ∧
    (m.stats rec).median ≤ (m.stats rec).max ∧
    rec.passes = (m.stats rec).values.length := by
  obtain ⟨prs, hmem, hne, rfl⟩ := mem_aggregate_results h
  rw [Metric.stats_aggregate_one]
  have hvne : prs.map m.extract ≠ [] := by simpa using hne
  obtain ⟨h1, h2⟩ := pymedian_bounds hvne
  refine ⟨h1, h2, ?_⟩
  show (aggregate_one prs).passes = (prs.map m.extract).length
  simp [aggregate_one]

/-- Witness for C10 at the concrete input `resultsEx`, metric erase p99.9. -/
theorem C10_aggregate_invariants_witness :
    ((("A" : Config), aggregate_one [docEx]) ∈ aggregate_results resultsEx) ∧
    ((Metric.erase_p99_9.stats (aggregate_one [docEx])).min
       ≤ (Metric.erase_p99_9.stats (aggregate_one [docEx])).median ∧
     (Metric.erase_p99_9.stats (aggregate_one [docEx])).median
       ≤ (Metric.erase_p99_9.stats (aggregate_one [docEx])).max ∧
     (aggregate_one [docEx]).passes
       = (Metric.erase_p99_9.stats (aggregate_one [docEx])).values.length) :=
  ⟨by decide,
    C10_aggregate_invariants resultsEx "A" (aggregate_one [docEx]) .erase_p99_9 (by decide)⟩

/-! ### Python's stable `sorted(..., key=...)` -/

variable {α : Type}

/-- The comparison Python's stable `sorted(items, key=f)` realises once
each item is tagged with its input position: ascending key, ties in
input-position order.  (A stable sort is exactly a sort by this
lexicographic relation on position-tagged items.) -/
def keyIdxRel (f : α → ℚ) (a b : ℕ × α) : Prop :=
  f a.2 < f b.2 ∨ (f a.2 = f b.2 ∧ a.1 ≤ b.1)

instance keyIdxRel.instDecidableRel (f : α → ℚ) : DecidableRel (keyIdxRel f) :=
  fun a b => by
    unfold keyIdxRel
    infer_instance

instance keyIdxRel.instIsTotal (f : α → ℚ) : IsTotal (ℕ × α) (keyIdxRel f) := by
  constructor
  intro a b
  rcases lt_trichotomy (f a.2) (f b.2) with h | h | h
  · exact Or.inl (Or.inl h)
  · rcases Nat.le_total a.1 b.1 with h2 | h2
    · exact Or.inl (Or.inr ⟨h, h2⟩)
    · exact Or.inr (Or.inr ⟨h.symm, h2⟩)
  · exact Or.inr (Or.inl h)

instance keyIdxRel.instIsTrans (f : α → ℚ) : IsTrans (ℕ × α) (keyIdxRel f) := by
  constructor
  rintro a b c (hab | ⟨hab, hab2⟩) (hbc | ⟨hbc, hbc2⟩)
  · exact Or.inl (lt_trans hab hbc)
  · exact Or.inl (lt_of_lt_of_eq hab hbc)
  · exact Or.inl (lt_of_eq_of_lt hab hbc)
  · exact Or.inr ⟨hab.trans hbc, le_trans hab2 hbc2⟩

/-- Python's stable `sorted(xs, key=f)`: tag each element with its input
position, sort by `keyIdxRel`, drop the tags. -/
def pysortedByKey (f : α → ℚ) (xs : List α) : List α :=
  (List.insertionSort (keyIdxRel f) xs.enum).map Prod.snd

theorem pysortedByKey_perm (f : α → ℚ) (xs : List α) :
    (pysortedByKey f xs).Perm xs := by
  have h := (List.perm_insertionSort (keyIdxRel f) xs.enum).map Prod.snd
  rwa [List.enum_map_snd] at h

theorem pysortedByKey_pairwise (f : α → ℚ) (xs : List α) :
    (pysortedByKey f xs).Pairwise fun a b => f a ≤ f b := by
  have h := List.sorted_insertionSort (keyIdxRel f) xs.enum
  unfold pysortedByKey
  rw [List.pairwise_map]
  refine List.Pairwise.imp ?_ h
  rintro a b (h1 | ⟨h1, h2⟩)
  · exact le_of_lt h1
  · exact le_of_eq h1

theorem mem_enumFrom_le {l : List α} {n : ℕ} {p : ℕ × α}
    (h : p ∈ List.enumFrom n l) : n ≤ p.1 := by
  induction l generalizing n with
  | nil => cases h
  | cons x t ih =>
    rcases List.mem_cons.mp h with h2 | h2
    · rw [h2]
    · exact le_trans (Nat.le_succ n) (ih h2)

theorem pairwise_fst_lt_enumFrom (n : ℕ) (l : List α) :
    (List.enumFrom n l).Pairwise fun a b => a.1 < b.1 := by
  induction l generalizing n with
  | nil => exact List.Pairwise.nil
  | cons x t ih =>
    refine List.pairwise_cons.mpr ⟨?_, ih (n + 1)⟩
    intro p hp
    exact lt_of_lt_of_le (Nat.lt_succ_self n) (mem_enumFrom_le hp)

theorem pairwise_fst_lt_enum (l : List α) :
    l.enum.Pairwise fun a b => a.1 < b.1 :=
  pairwise_fst_lt_enumFrom 0 l

/-- Stability of `pysortedByKey`: restricted to the items whose key is any
fixed value `q`, the sorted output lists them in exactly the input order. -/
theorem pysortedByKey_filter_key (f : α → ℚ) (xs : List α) (q : ℚ) :
    (pysortedByKey f xs).filter (fun x => f x = q)
      = xs.filter (fun x => f x = q) := by
  unfold pysortedByKey
  rw [List.filter_map]
  conv_rhs => rw [← List.enum_map_snd xs, List.filter_map]
  congr 1
  have hperm : (List.insertionSort (keyIdxRel f) xs.enum).Perm xs.enum :=
    List.perm_insertionSort _ _
  have hFG := List.Perm.filter ((fun x => decide (f x = q)) ∘ Prod.snd) hperm
  have hGlt : ((xs.enum.filter ((fun x => decide (f x = q)) ∘ Prod.snd)).Pairwise
      fun a b => a.1 < b.1) :=
    (pairwise_fst_lt_enum xs).filter _
  have hS : (List.insertionSort (keyIdxRel f) xs.enum).Pairwise (keyIdxRel f) :=
    List.sorted_insertionSort (keyIdxRel f) xs.enum
  have hFrel := hS.filter ((fun x => decide (f x = q)) ∘ Prod.snd)
  have hFle : (((List.insertionSort (keyIdxRel f) xs.enum).filter
      ((fun x => decide (f x = q)) ∘ Prod.snd)).Pairwise
      fun a b => a.1 ≤ b.1) := by
    refine List.Pairwise.imp_of_mem ?_ hFrel
    intro a b ha hb hab
    have hqa : f a.2 = q := by
      have h2 := (List.mem_filter.mp ha).2
      simpa using h2
    have hqb : f b.2 = q := by
      have h2 := (List.mem_filter.mp hb).2
      simpa using h2
    rcases hab with h1 | ⟨h1, h2⟩
    · rw [hqa, hqb] at h1
      exact absurd h1 (lt_irrefl q)
    · exact h2
  have hFne : (((List.insertionSort (keyIdxRel f) xs.enum).filter
      ((fun x => decide (f x = q)) ∘ Prod.snd)).Pairwise
      fun a b => a.1 ≠ b.1) := by
    have hGnodup : ((xs.enum.filter ((fun x => decide (f x = q)) ∘ Prod.snd)).map
        Prod.fst).Nodup := by
      rw [List.Nodup, List.pairwise_map]
      exact hGlt.imp fun h => Nat.ne_of_lt h
    have hFnodup := (List.Perm.nodup_iff (hFG.map Prod.fst)).mpr hGnodup
    rw [List.Nodup, List.pairwise_map] at hFnodup
    exact hFnodup
  have hFlt := (hFle.and hFne).imp
    (fun h => lt_of_le_of_ne h.1 h.2)
  haveI : IsAntisymm (ℕ × α) (fun a b => a.1 < b.1) :=
    ⟨fun a b h1 h2 => absurd h2 (Nat.lt_asymm h1)⟩
  exact List.eq_of_perm_of_sorted hFG hFlt hGlt

theorem pysortedByKey_head_le (f : α → ℚ) (xs : List α) (w : α) (rest : List α)
    (h : pysortedByKey f xs = w :: rest) :
    ∀ x ∈ xs, f w ≤ f x := by
  intro x hx
  have hperm := pysortedByKey_perm f xs
  rw [h] at hperm
  rcases List.mem_cons.mp (hperm.mem_iff.mpr hx) with h2 | h2
  · rw [h2]
  · have hpw := pysortedByKey_pairwise f xs
    rw [h] at hpw
    exact (List.pairwise_cons.mp hpw).1 x h2

theorem pysortedByKey_ne_nil (f : α → ℚ) {xs : List α} (h : xs ≠ []) :
    pysortedByKey f xs ≠ [] := by
  intro h2
  have hp := pysortedByKey_perm f xs
  rw [h2] at hp
  exact h hp.symm.eq_nil

/-! ### Claims C4, C7: the comparison table -/

/-- The `vs Best` column entry of one comparison row: the literal
`"baseline"` marker, the (unreachable) `"N/A"` marker, or a percentage. -/
inductive DiffEntry
  | baseline
  | na
  | pct (x : ℚ)
  deriving DecidableEq

/-- The data behind one printed comparison-table row.  The remaining
printed columns (passes, min, max, stdev) are read verbatim from the
aggregate record and carry no further logic. -/
structure Row where
  config : Config
  median : ℚ
  diff : DiffEntry
  deriving DecidableEq

/-- The fatal exit of `print_comparison_table`. -/
inductive TableError
  | zeroBaseline
  deriving DecidableEq

/-- The reporter `print_comparison_table`, reduced to the data it prints: sort the
aggregated entries by the metric's median (stable, input order on ties),
exit fatally if the baseline (first) median is zero, otherwise emit one
row per entry with the `"baseline"` marker for the winner and the
percentage deviation from the baseline median for everyone else.  An
empty input prints an error line and returns without rows (no exit). -/
def print_comparison_table (aggregated : List (Config × AggRecord)) (m : Metric) :
    Except TableError (List Row) :=
  match pysortedByKey (fun p => (m.stats p.2).median) aggregated with
  | [] => .ok []
  | winner :: rest =>
    if (m.stats winner.2).median = 0 then .error .zeroBaseline
    else .ok ((winner :: rest).map fun p =>
      { config := p.1
        median := (m.stats p.2).median
        diff :=
          if p.1 = winner.1 then .baseline
          else if (m.stats winner.2).median = 0 then .na
          else .pct (((m.stats p.2).median - (m.stats winner.2).median) /
            (m.stats winner.2).median * 100) })

/-- C4: for every tracked metric, `print_comparison_table` ranks the
aggregated configurations by ascending median via a stable sort whose ties
are broken by input iteration order; the first (lowest-median) entry is
the baseline and is reported with the literal `baseline` marker, and every
other entry is reported with the percentage deviation
`(median - baseline) / baseline * 100`.  (Configuration names are pairwise
distinct, being keys of a Python dictionary.) -/
theorem C4_ranking (aggregated : List (Config × AggRecord)) (m : Metric)
    (w : Config × AggRecord) (rest : List (Config × AggRecord))
    (hnd : (aggregated.map Prod.fst).Nodup)
    (hsorted : pysortedByKey (fun p => (m.stats p.2).median) aggregated = w :: rest)
    (hbz : (m.stats w.2).median ≠ 0) :
    (w :: rest).Perm aggregated ∧
    ((w :: rest).Pairwise fun a b => (m.stats a.2).median ≤ (m.stats b.2).median) ∧
    (∀ q : ℚ, (w :: rest).filter (fun p => (m.stats p.2).median = q)
        = aggregated.filter fun p => (m.stats p.2).median = q) ∧
    (∀ p ∈ aggregated, (m.stats w.2).median ≤ (m.stats p.2).median) ∧
    print_comparison_table aggregated m = .ok
      ({ config := w.1, median := (m.stats w.2).median, diff := .baseline } ::
        rest.map fun p =>
          { config := p.1, median := (m.stats p.2).median,
            diff := .pct (((m.stats p.2).median - (m.stats w.2).median) /
              (m.stats w.2).median * 100) }) := by
  have hperm : (w :: rest).Perm aggregated := by
    rw [← hsorted]
    exact pysortedByKey_perm _ _
  have hpw : ((w :: rest).Pairwise fun a b =>
      (m.stats a.2).median ≤ (m.stats b.2).median) := by
    rw [← hsorted]
    exact pysortedByKey_pairwise _ _
  refine ⟨hperm, hpw, ?_, pysortedByKey_head_le _ _ _ _ hsorted, ?_⟩
  · intro q
    rw [← hsorted]
    exact pysortedByKey_filter_key _ _ q
  · have hne : ∀ p ∈ rest, p.1 ≠ w.1 := by
      have hnd2 : ((w :: rest).map Prod.fst).Nodup :=
        (List.Perm.nodup_iff (hperm.map Prod.fst)).mpr hnd
      rw [List.map_cons, List.nodup_cons] at hnd2
      intro p hp heq
      exact hnd2.1 (heq ▸ List.mem_map_of_mem Prod.fst hp)
    have hpc : print_comparison_table aggregated m =
        if (m.stats w.2).median = 0 then .error .zeroBaseline
        else .ok ((w :: rest).map fun p =>
          { config := p.1
            median := (m.stats p.2).median
            diff :=
              if p.1 = w.1 then .baseline
              else if (m.stats w.2).median = 0 then .na
              else .pct (((m.stats p.2).median - (m.stats w.2).median) /
                (m.stats w.2).median * 100) }) := by
      unfold print_comparison_table
      rw [hsorted]
    rw [hpc, if_neg hbz, List.map_cons]
    congr 1
    congr 1
    · simp
    · refine List.map_congr_left ?_
      intro p hp
      rw [if_neg (hne p hp), if_neg hbz]

/-- A concrete document whose latency percentiles are all `q`. -/
def docQ (q : ℚ) : Doc := ⟨⟨⟨q, q, q, q, q, q⟩, ⟨q, q, q, q, q, q⟩, ⟨q, q, q, q, q, q⟩⟩⟩

/-- A concrete aggregate record with all statistics 5. -/
def recA : AggRecord := aggregate_one [docQ 5]

/-- A concrete aggregate record with all statistics 3. -/
def recB : AggRecord := aggregate_one [docQ 3]

/-- A concrete two-configuration aggregated mapping, where `"B"` is faster
than `"A"` on every metric. -/
def aggEx : List (Config × AggRecord) := [("A", recA), ("B", recB)]

/-- Witness for C4 at the concrete input `aggEx`, metric insert p50:
`"B"` (median 3) is the baseline, `"A"` (median 5) deviates. -/
theorem C4_ranking_witness :
    ((aggEx.map Prod.fst).Nodup ∧
     pysortedByKey (fun p => (Metric.insert_p50.stats p.2).median) aggEx
       = ("B", recB) :: [("A", recA)] ∧
     (Metric.insert_p50.stats recB).median ≠ 0) ∧
    ((("B", recB) :: [("A", recA)]).Perm aggEx ∧
     ((("B", recB) :: [("A", recA)]).Pairwise fun a b =>
       (Metric.insert_p50.stats a.2).median ≤ (Metric.insert_p50.stats b.2).median) ∧
     (∀ q : ℚ, (("B", recB) :: [("A", recA)]).filter
         (fun p => (Metric.insert_p50.stats p.2).median = q)
       = aggEx.filter fun p => (Metric.insert_p50.stats p.2).median = q) ∧
     (∀ p ∈ aggEx,
       (Metric.insert_p50.stats recB).median ≤ (Metric.insert_p50.stats p.2).median) ∧
     print_comparison_table aggEx .insert_p50 = .ok
       ({ config := "B", median := (Metric.insert_p50.stats recB).median,
          diff := .baseline } ::
         [("A", recA)].map fun p =>
           { config := p.1, median := (Metric.insert_p50.stats p.2).median,
             diff := .pct (((Metric.insert_p50.stats p.2).median -
               (Metric.insert_p50.stats recB).median) /
               (Metric.insert_p50.stats recB).median * 100) })) :=
  ⟨⟨by decide, by decide, by decide⟩,
    C4_ranking aggEx .insert_p50 ("B", recB) [("A", recA)]
      (by decide) (by decide) (by decide)⟩

/-- C7: if the baseline (lowest) median for the tracked metric is exactly
zero, `print_comparison_table` exits fatally with the zero-baseline error
and emits no per-configuration deviation rows. -/
theorem C7_zero_baseline_fatal (aggregated : List (Config × AggRecord)) (m : Metric)
    (w : Config × AggRecord) (rest : List (Config × AggRecord))
    (hsorted : pysortedByKey (fun p => (m.stats p.2).median) aggregated = w :: rest)
    (hz : (m.stats w.2).median = 0) :
    print_comparison_table aggregated m = .error .zeroBaseline := by
  have hpc : print_comparison_table aggregated m =
      if (m.stats w.2).median = 0 then .error .zeroBaseline
      else .ok ((w :: rest).map fun p =>
        { config := p.1
          median := (m.stats p.2).median
          diff :=
            if p.1 = w.1 then .baseline
            else if (m.stats w.2).median = 0 then .na
            else .pct (((m.stats p.2).median - (m.stats w.2).median) /
              (m.stats w.2).median * 100) }) := by
    unfold print_comparison_table
    rw [hsorted]
  rw [hpc, if_pos hz]

/-- A concrete aggregated mapping whose only entry has all-zero medians. -/
def aggZ : List (Config × AggRecord) := [("Z", aggregate_one [docEx])]

/-- Witness for C7 at the concrete input `aggZ` (insert p99.9 median 0). -/
theorem C7_zero_baseline_fatal_witness :
    (pysortedByKey (fun p => (Metric.insert_p99_9.stats p.2).median) aggZ
       = ("Z", aggregate_one [docEx]) :: [] ∧
     (Metric.insert_p99_9.stats (aggregate_one [docEx])).median = 0) ∧
    print_comparison_table aggZ .insert_p99_9 = .error .zeroBaseline :=
  ⟨⟨by decide, by decide⟩,
    C7_zero_baseline_fatal aggZ .insert_p99_9 ("Z", aggregate_one [docEx]) []
      (by decide) (by decide)⟩

/-! ### Claim C9: the detailed-percentile winner -/

/-- The three benchmark operations. -/
inductive Op
  | insert
  | find
  | erase
  deriving DecidableEq

/-- The high-tail tracked metric of an operation (`{op}_p99_9`). -/
def Op.p99_9Metric : Op → Metric
  | .insert => .insert_p99_9
  | .find => .find_p99_9
  | .erase => .erase_p99_9

/-- The operation's section of a performance document. -/
def Op.sel : Op → Performance → Percentiles
  | .insert, pf => pf.insert
  | .find, pf => pf.find
  | .erase, pf => pf.erase

/-- The reporter `print_detailed_percentiles`: re-rank the aggregated configurations by
the operation's p99.9 median, take the first entry, and report its
representative (median) run's full percentile ladder for that operation.
(`none` models the IndexError on an empty dictionary, never reached by the
script.) -/
def print_detailed_percentiles (aggregated : List (Config × AggRecord)) (op : Op) :
    Option (Config × Percentiles) :=
  match pysortedByKey (fun p => ((Op.p99_9Metric op).stats p.2).median) aggregated with
  | [] => none
  | winner :: _ => some (winner.1, op.sel winner.2.median_run)

/-- C9: for every operation, the detailed-percentile report re-ranks the
aggregated configurations by ascending median of that operation's p99.9
metric (the high-tail tracked percentile, not p50), selects the first
entry — one of minimal p99.9 median — and reports that entry's
representative run's percentile ladder verbatim from the stored median
run. -/
theorem C9_detailed_percentiles (aggregated : List (Config × AggRecord)) (op : Op)
    (w : Config × AggRecord) (rest : List (Config × AggRecord))
    (hsorted : pysortedByKey (fun p => ((Op.p99_9Metric op).stats p.2).median) aggregated
      = w :: rest) :
    w ∈ aggregated ∧
    (∀ p ∈ aggregated,
      ((Op.p99_9Metric op).stats w.2).median ≤ ((Op.p99_9Metric op).stats p.2).median) ∧
    print_detailed_percentiles aggregated op = some (w.1, op.sel w.2.median_run) := by
  have hperm : (w :: rest).Perm aggregated := by
    rw [← hsorted]
    exact pysortedByKey_perm _ _
  refine ⟨hperm.mem_iff.mp (List.mem_cons_self w rest), ?_, ?_⟩
  · exact pysortedByKey_head_le _ _ _ _ hsorted
  · unfold print_detailed_percentiles
    rw [hsorted]

/-- Witness for C9 at the concrete input `aggEx`, operation insert. -/
theorem C9_detailed_percentiles_witness :
    (pysortedByKey (fun p => ((Op.p99_9Metric .insert).stats p.2).median) aggEx
       = ("B", recB) :: [("A", recA)]) ∧
    (("B", recB) ∈ aggEx ∧
     (∀ p ∈ aggEx, ((Op.p99_9Metric .insert).stats recB).median
       ≤ ((Op.p99_9Metric .insert).stats p.2).median) ∧
     print_detailed_percentiles aggEx .insert
       = some ("B", Op.sel .insert recB.median_run)) :=
  ⟨by decide,
    C9_detailed_percentiles aggEx .insert ("B", recB) [("A", recA)] (by decide)⟩

/-! ### Claim C6: the CSV export -/

/-- One CSV cell: a string, a number, or — for the stored standard
deviations — the non-negative square root of the given rational (the
script writes `stdev(values)` itself; see `MetricStats.stdevSq`). -/
inductive Cell
  | str (s : String)
  | num (q : ℚ)
  | sqrtNum (q : ℚ)
  deriving DecidableEq

/-- The CSV header row written by `export_csv`. -/
def csvHeader : List String :=
  ["config", "passes",
   "insert_p99_9_median", "insert_p99_9_min", "insert_p99_9_max", "insert_p99_9_stdev",
   "find_p99_9_median", "find_p99_9_min", "find_p99_9_max", "find_p99_9_stdev",
   "erase_p99_9_median", "erase_p99_9_min", "erase_p99_9_max", "erase_p99_9_stdev"]

/-- One CSV data row written by `export_csv`. -/
def csvRow (config : Config) (stats : AggRecord) : List Cell :=
  [.str config, .num (stats.passes : ℚ),
   .num stats.insert_p99_9.median, .num stats.insert_p99_9.min,
   .num stats.insert_p99_9.max, .sqrtNum stats.insert_p99_9.stdevSq,
   .num stats.find_p99_9.median, .num stats.find_p99_9.min,
   .num stats.find_p99_9.max, .sqrtNum stats.find_p99_9.stdevSq,
   .num stats.erase_p99_9.median, .num stats.erase_p99_9.min,
   .num stats.erase_p99_9.max, .sqrtNum stats.erase_p99_9.stdevSq]

/-- The exporter `export_csv`, reduced to the data it writes: the header and one row
per configuration, sorted by ascending insert p99.9 median. -/
def export_csv (aggregated : List (Config × AggRecord)) :
    List String × List (List Cell) :=
  (csvHeader,
    (pysortedByKey (fun p => p.2.insert_p99_9.median) aggregated).map fun p =>
      csvRow p.1 p.2)

/-- A document with insert p50 latency 7777 and otherwise small values. -/
def docC1 : Doc := ⟨⟨⟨1, 7777, 2, 3, 4, 5⟩, ⟨6, 7, 8, 9, 10, 11⟩, ⟨12, 13, 14, 15, 16, 17⟩⟩⟩

/-- A document with insert p50 latency 7779 and otherwise small values. -/
def docC2 : Doc := ⟨⟨⟨1, 7779, 2, 3, 4, 5⟩, ⟨6, 7, 8, 9, 10, 11⟩, ⟨12, 13, 14, 15, 16, 17⟩⟩⟩

/-- A document with insert p50 latency 7781 and otherwise small values. -/
def docC3 : Doc := ⟨⟨⟨1, 7781, 2, 3, 4, 5⟩, ⟨6, 7, 8, 9, 10, 11⟩, ⟨12, 13, 14, 15, 16, 17⟩⟩⟩

/-- The aggregate record over `[docC1, docC2, docC3]`: insert p50 median
7779. -/
def recC : AggRecord := aggregate_one [docC1, docC2, docC3]

/-- C6 counterexample: the claim says each CSV row contains the median,
minimum, maximum and standard deviation for *both* tracked percentiles
(p50 and p99.9), but the exported row for `recC` contains no p50
statistic at all — its insert p50 median 7779 appears in no cell — and
the header has no p50 column. -/
theorem C6_counterexample :
    recC.insert_p50.median = 7779 ∧
    (export_csv [("C", recC)]).2 = [csvRow "C" recC] ∧
    Cell.num recC.insert_p50.median ∉ csvRow "C" recC ∧
    "insert_p50_median" ∉ (export_csv [("C", recC)]).1 := by
  refine ⟨by decide, rfl, by decide, by decide⟩

/-- C6 (amended): the CSV export writes one row per configuration holding
the configuration name, the passes count, and median, minimum, maximum
and standard deviation of the p99.9 percentile only of each of the three
operations, with rows sorted by ascending insert p99.9 median. -/
theorem C6_csv_rows (aggregated : List (Config × AggRecord)) :
    (export_csv aggregated).1 = csvHeader ∧
    (export_csv aggregated).2
      = (pysortedByKey (fun p => p.2.insert_p99_9.median) aggregated).map
          (fun p => csvRow p.1 p.2) ∧
    (pysortedByKey (fun p => p.2.insert_p99_9.median) aggregated).Perm aggregated ∧
    ((pysortedByKey (fun p => p.2.insert_p99_9.median) aggregated).Pairwise
      fun a b => a.2.insert_p99_9.median ≤ b.2.insert_p99_9.median) ∧
    ∀ p ∈ aggregated, csvRow p.1 p.2 =
      [.str p.1, .num (p.2.passes : ℚ),
       .num p.2.insert_p99_9.median, .num p.2.insert_p99_9.min,
       .num p.2.insert_p99_9.max, .sqrtNum p.2.insert_p99_9.stdevSq,
       .num p.2.find_p99_9.median, .num p.2.find_p99_9.min,
       .num p.2.find_p99_9.max, .sqrtNum p.2.find_p99_9.stdevSq,
       .num p.2.erase_p99_9.median, .num p.2.erase_p99_9.min,
       .num p.2.erase_p99_9.max, .sqrtNum p.2.erase_p99_9.stdevSq] :=
  ⟨rfl, rfl, pysortedByKey_perm _ _, pysortedByKey_pairwise _ _, fun p _ => rfl⟩

/-- Witness for C6 (amended) at the concrete input `aggEx`. -/
theorem C6_csv_rows_witness :
    (export_csv aggEx).1 = csvHeader ∧
    (export_csv aggEx).2
      = (pysortedByKey (fun p => p.2.insert_p99_9.median) aggEx).map
          (fun p => csvRow p.1 p.2) ∧
    (pysortedByKey (fun p => p.2.insert_p99_9.median) aggEx).Perm aggEx ∧
    ((pysortedByKey (fun p => p.2.insert_p99_9.median) aggEx).Pairwise
      fun a b => a.2.insert_p99_9.median ≤ b.2.insert_p99_9.median) ∧
    ∀ p ∈ aggEx, csvRow p.1 p.2 =
      [.str p.1, .num (p.2.passes : ℚ),
       .num p.2.insert_p99_9.median, .num p.2.insert_p99_9.min,
       .num p.2.insert_p99_9.max, .sqrtNum p.2.insert_p99_9.stdevSq,
       .num p.2.find_p99_9.median, .num p.2.find_p99_9.min,
       .num p.2.find_p99_9.max, .sqrtNum p.2.find_p99_9.stdevSq,
       .num p.2.erase_p99_9.median, .num p.2.erase_p99_9.min,
       .num p.2.erase_p99_9.max, .sqrtNum p.2.erase_p99_9.stdevSq] :=
  C6_csv_rows aggEx

end InterleavedBench
